import Mathlib

/-!
Verification of the `wrud` activity logger (`logger.py`) against its
natural-language specification.

The program is embedded shallowly: Python strings become `List Char`,
the log file becomes an explicit text value threaded through the
functions, and the clock readings (`date.today()`, `datetime.now()`)
become explicit string parameters of `write`.
-/

namespace Wrud

/-- Python strings are modelled as lists of characters. -/
abbrev Str := List Char

/-- Coercion from Lean string literals, used for concrete test inputs. -/
def strLit (s : String) : Str := s.data

/-- Result of `subprocess.run`: the exit status and captured standard output. -/
structure RunResult where
  returncode : Int
  stdout : Str

/-- Python `str.strip()`: remove leading and trailing whitespace. -/
def strip (s : Str) : Str :=
  ((s.dropWhile Char.isWhitespace).reverse.dropWhile Char.isWhitespace).reverse

/-- `prompt()` from `logger.py`: `r.stdout.strip() if r.returncode == 0 else None`. -/
def prompt (r : RunResult) : Option Str :=
  if r.returncode = 0 then some (strip r.stdout) else none

/-- The header string `h = f"## {today}\n"` built by `write`. -/
def hdr (today : Str) : Str := '#' :: '#' :: ' ' :: (today ++ ['\n'])

/-- The entry line `f"- {ts} {entry}\n"` written by `write`. -/
def entryLine (ts entry : Str) : Str := '-' :: ' ' :: (ts ++ ' ' :: (entry ++ ['\n']))

/-- `write(entry)` from `logger.py` as a pure transformation of the file text.
`today` and `ts` are the formatted clock readings; `text` is the current file
content (`""` when the file is absent).  The file is opened in append mode; the
header is appended first when `h not in text`, then the entry line. -/
def write (today ts entry text : Str) : Str :=
  text ++ (if hdr today <:+: text then [] else '\n' :: hdr today) ++ entryLine ts entry

/-- One invocation of `write`, with the clock readings observed at that call. -/
structure WriteCall where
  today : Str
  ts : Str
  entry : Str

/-- A sequence of `write` invocations applied to an initial file content. -/
def runWrites : List WriteCall → Str → Str
  | [], text => text
  | c :: cs, text => runWrites cs (write c.today c.ts c.entry text)

/-- A Day Section header as a line of the file (no trailing newline): `## d`. -/
def hline (d : Str) : Str := '#' :: '#' :: ' ' :: d

/-- The lines of the file, in Python's `text.split("\n")` sense. -/
def fileLines (text : Str) : List Str := text.splitOn '\n'

/-- How many lines of `text` are exactly the Day Section header for date `d`. -/
def countHeaderLines (d text : Str) : Nat := (fileLines text).count (hline d)

/-- The string contains no newline character. -/
def NlFree (s : Str) : Prop := '\n' ∉ s

instance decNlFree (s : Str) : Decidable (NlFree s) :=
  inferInstanceAs (Decidable ('\n' ∉ s))

/-- The text is empty or ends with a newline. -/
def EndsNl (text : Str) : Prop := text = [] ∨ ∃ t, text = t ++ ['\n']

/-- Invariant maintained by `write`: the file ends with a newline (or is
empty), each date's header occurs as a line at most once, and whenever it
occurs as a line, the header string occurs as a substring. -/
def Inv (text : Str) : Prop :=
  EndsNl text ∧
    ∀ d : Str, countHeaderLines d text ≤ 1 ∧
      (1 ≤ countHeaderLines d text → hdr d <:+: text)

/-- Glue two line decompositions of adjacent texts: the last line of the
first text continues into the first line of the second. -/
def glue : List Str → List Str → List Str
  | [], m => m
  | [l], [] => [l]
  | [l], m0 :: ms => (l ++ m0) :: ms
  | l :: l1 :: ls, m => l :: glue (l1 :: ls) m

/-- Observable actions of the driver loop `main()`. -/
inductive Event where
  | promptEv : RunResult → Event
  | writeEv : Str → Event
  | sleepEv : Nat → Event

/-- State of the driver: the log file content and the trace of actions. -/
structure SysState where
  text : Str
  events : List Event

/-- One iteration of the loop body of `main()`:
`ans = prompt(); if ans: write(ans); time.sleep(1800)`.
A `None` answer and an empty answer are both falsy in Python. -/
def mainIter (r : RunResult) (today ts : Str) (s : SysState) : SysState :=
  match prompt r with
  | some a =>
      if a = [] then
        ⟨s.text, s.events ++ [Event.promptEv r, Event.sleepEv 1800]⟩
      else
        ⟨write today ts a s.text,
          s.events ++ [Event.promptEv r, Event.writeEv a, Event.sleepEv 1800]⟩
  | none => ⟨s.text, s.events ++ [Event.promptEv r, Event.sleepEv 1800]⟩

/-- The first `n` iterations of `main()`, starting from an absent log file and
an empty trace; `inputs k` supplies the dialog outcome and the clock readings
of iteration `k`. -/
def mainRun (inputs : Nat → RunResult × Str × Str) : Nat → SysState
  | 0 => ⟨[], []⟩
  | n + 1 => mainIter (inputs n).1 (inputs n).2.1 (inputs n).2.2 (mainRun inputs n)

theorem glue_nil_left (m : List Str) : glue [] m = m := rfl

theorem glue_single (l : Str) (m0 : Str) (ms : List Str) :
    glue [l] (m0 :: ms) = (l ++ m0) :: ms := rfl

theorem glue_cons (l l1 : Str) (ls m : List Str) :
    glue (l :: l1 :: ls) m = l :: glue (l1 :: ls) m := rfl

theorem splitOnP_glue (p : Char → Bool) (xs ys : Str) :
    (xs ++ ys).splitOnP p = glue (xs.splitOnP p) (ys.splitOnP p) := by
  induction xs with
  | nil =>
      rcases hy : ys.splitOnP p with _ | ⟨m0, ms⟩
      · exact absurd hy (List.splitOnP_ne_nil p ys)
      · simp [glue, hy]
  | cons x xs ih =>
      rcases hx : xs.splitOnP p with _ | ⟨l0, ls0⟩
      · exact absurd hx (List.splitOnP_ne_nil p xs)
      · by_cases hp : p x
        · simp only [List.cons_append, List.splitOnP_cons, hp, if_pos, ih, hx]
          cases ls0 <;> simp [glue]
        · simp only [List.cons_append, List.splitOnP_cons, hp, if_neg, ih, hx]
          rcases hy : ys.splitOnP p with _ | ⟨m0, ms⟩
          · exact absurd hy (List.splitOnP_ne_nil p ys)
          · cases ls0 <;> simp [glue]

theorem fileLines_append (xs ys : Str) :
    fileLines (xs ++ ys) = glue (fileLines xs) (fileLines ys) := by
  simpa [fileLines, List.splitOn] using splitOnP_glue (· == '\n') xs ys

theorem fileLines_ne_nil (t : Str) : fileLines t ≠ [] := by
  simp only [fileLines, List.splitOn]
  exact List.splitOnP_ne_nil _ t

theorem glue_endNil : ∀ (L m : List Str), m ≠ [] → glue (L ++ [[]]) m = L ++ m
  | [], m, hm => by
      rcases m with _ | ⟨m0, ms⟩
      · exact absurd rfl hm
      · simp [glue]
  | [x], m, hm => by
      rcases m with _ | ⟨m0, ms⟩
      · exact absurd rfl hm
      · simp [glue]
  | x :: y :: L, m, hm => by
      have ih := glue_endNil (y :: L) m hm
      simp only [List.cons_append] at ih ⊢
      rw [glue_cons, ih]

theorem glue_nilnil : ∀ r : List Str, r ≠ [] → ∃ L, glue r [[], []] = L ++ [[]]
  | [], h => absurd rfl h
  | [l], _ => ⟨[l], by simp [glue]⟩
  | l :: l1 :: ls, _ => by
      obtain ⟨L, hL⟩ := glue_nilnil (l1 :: ls) (by simp)
      exact ⟨l :: L, by rw [glue_cons, hL]; rfl⟩

theorem endsNl_fileLines (text : Str) (h : EndsNl text) :
    ∃ L, fileLines text = L ++ [[]] := by
  rcases h with rfl | ⟨t, rfl⟩
  · exact ⟨[], by simp [fileLines]⟩
  · rw [fileLines_append]
    rw [show fileLines ['\n'] = [[], []] from rfl]
    exact glue_nilnil (fileLines t) (fileLines_ne_nil t)

theorem countHeaderLines_nil (d : Str) : countHeaderLines d [] = 0 := by
  simp [countHeaderLines, fileLines, List.count_cons, hline]

theorem countHeaderLines_append (d text block : Str) (h : EndsNl text) :
    countHeaderLines d (text ++ block)
      = countHeaderLines d text + countHeaderLines d block := by
  obtain ⟨L, hL⟩ := endsNl_fileLines text h
  have h2 : fileLines (text ++ block) = L ++ fileLines block := by
    rw [fileLines_append, hL, glue_endNil _ _ (fileLines_ne_nil block)]
  unfold countHeaderLines
  rw [h2, hL, List.count_append, List.count_append]
  simp [List.count_cons, hline]

theorem not_nl_mem_entry_start (ts entry : Str) (hts : NlFree ts) (he : NlFree entry) :
    ∀ x ∈ '-' :: ' ' :: (ts ++ ' ' :: entry), ¬ (x == '\n') = true := by
  intro x hx hbeq
  rw [beq_iff_eq] at hbeq
  subst hbeq
  simp only [List.mem_cons, List.mem_append] at hx
  rcases hx with h | h | h | h | h
  · exact absurd h (by decide)
  · exact absurd h (by decide)
  · exact hts h
  · exact absurd h (by decide)
  · exact he h

theorem not_nl_mem_hline (d : Str) (hd : NlFree d) :
    ∀ x ∈ hline d, ¬ (x == '\n') = true := by
  intro x hx hbeq
  rw [beq_iff_eq] at hbeq
  subst hbeq
  simp only [hline, List.mem_cons] at hx
  rcases hx with h | h | h | h
  · exact absurd h (by decide)
  · exact absurd h (by decide)
  · exact absurd h (by decide)
  · exact hd h

theorem entryLine_eq (ts entry : Str) :
    entryLine ts entry = ('-' :: ' ' :: (ts ++ ' ' :: entry)) ++ '\n' :: [] := by
  simp [entryLine]

theorem fileLines_entryLine (ts entry : Str) (hts : NlFree ts) (he : NlFree entry) :
    fileLines (entryLine ts entry) = ['-' :: ' ' :: (ts ++ ' ' :: entry), []] := by
  rw [entryLine_eq]
  simp only [fileLines, List.splitOn]
  rw [List.splitOnP_first _ _ (not_nl_mem_entry_start ts entry hts he) '\n' (by simp)]
  rfl

theorem countHeaderLines_entryLine (d ts entry : Str)
    (hts : NlFree ts) (he : NlFree entry) :
    countHeaderLines d (entryLine ts entry) = 0 := by
  unfold countHeaderLines
  rw [fileLines_entryLine ts entry hts he]
  have h1 : ('-' :: ' ' :: (ts ++ ' ' :: entry)) ≠ hline d := by simp [hline]
  have h2 : ([] : Str) ≠ hline d := by simp [hline]
  have h3 : hline d ≠ ([] : Str) := by simp [hline]
  simp [List.count_cons, h1, h2, h3]

theorem hdr_eq (d : Str) : hdr d = hline d ++ ['\n'] := by
  simp [hdr, hline]

theorem fileLines_cons_nl (z : Str) : fileLines ('\n' :: z) = [] :: fileLines z := by
  simp only [fileLines, List.splitOn]
  rw [List.splitOnP_cons]
  simp

theorem fileLines_headerBlock (today ts entry : Str)
    (hto : NlFree today) (hts : NlFree ts) (he : NlFree entry) :
    fileLines (('\n' :: hdr today) ++ entryLine ts entry)
      = [[], hline today, '-' :: ' ' :: (ts ++ ' ' :: entry), []] := by
  have h1 : ('\n' :: hdr today) ++ entryLine ts entry
      = '\n' :: (hline today ++ '\n' :: entryLine ts entry) := by
    rw [hdr_eq]
    simp
  rw [h1, fileLines_cons_nl]
  simp only [fileLines, List.splitOn]
  rw [List.splitOnP_first _ _ (not_nl_mem_hline today hto) '\n' (by simp)]
  have h2 := fileLines_entryLine ts entry hts he
  simp only [fileLines, List.splitOn] at h2
  rw [h2]

theorem hline_inj (a b : Str) : hline a = hline b ↔ a = b := by
  simp [hline]

theorem countHeaderLines_headerBlock (d today ts entry : Str)
    (hto : NlFree today) (hts : NlFree ts) (he : NlFree entry) :
    countHeaderLines d (('\n' :: hdr today) ++ entryLine ts entry)
      = if d = today then 1 else 0 := by
  unfold countHeaderLines
  rw [fileLines_headerBlock today ts entry hto hts he]
  have h1 : ('-' :: ' ' :: (ts ++ ' ' :: entry)) ≠ hline d := by simp [hline]
  have h2 : ([] : Str) ≠ hline d := by simp [hline]
  have h4 : hline d ≠ ([] : Str) := by simp [hline]
  by_cases hd : d = today
  · subst hd
    simp [List.count_cons, h1, h2, h4]
  · have h3 : hline today ≠ hline d := fun h => hd ((hline_inj today d).mp h).symm
    simp [List.count_cons, h1, h2, h3, h4, hd]

theorem contains_extend_right {l m : Str} (h : l <:+: m) (n : Str) : l <:+: m ++ n := by
  obtain ⟨s, t, hst⟩ := h
  exact ⟨s, t ++ n, by rw [← hst]; simp⟩

theorem endsNl_write (today ts entry text : Str) : EndsNl (write today ts entry text) := by
  refine Or.inr
    ⟨text ++ (if hdr today <:+: text then [] else '\n' :: hdr today)
        ++ ('-' :: ' ' :: (ts ++ ' ' :: entry)), ?_⟩
  simp [write, entryLine]

theorem inv_nil : Inv [] := by
  refine ⟨Or.inl rfl, fun d => ?_⟩
  rw [countHeaderLines_nil]
  exact ⟨Nat.zero_le 1, fun h => absurd h (by simp)⟩

theorem write_pos (today ts entry text : Str) (h : hdr today <:+: text) :
    write today ts entry text = text ++ entryLine ts entry := by
  simp [write, h]

theorem write_neg (today ts entry text : Str) (h : ¬ hdr today <:+: text) :
    write today ts entry text = text ++ (('\n' :: hdr today) ++ entryLine ts entry) := by
  simp [write, h]

theorem inv_write (today ts entry text : Str)
    (h1 : NlFree today) (h2 : NlFree ts) (h3 : NlFree entry)
    (hI : Inv text) : Inv (write today ts entry text) := by
  refine ⟨endsNl_write today ts entry text, fun d => ?_⟩
  by_cases hin : hdr today <:+: text
  · rw [write_pos today ts entry text hin,
      countHeaderLines_append d text (entryLine ts entry) hI.1,
      countHeaderLines_entryLine d ts entry h2 h3, Nat.add_zero]
    refine ⟨(hI.2 d).1, fun hge => ?_⟩
    exact contains_extend_right ((hI.2 d).2 hge) (entryLine ts entry)
  · rw [write_neg today ts entry text hin,
      countHeaderLines_append d text (('\n' :: hdr today) ++ entryLine ts entry) hI.1,
      countHeaderLines_headerBlock d today ts entry h1 h2 h3]
    by_cases hd : d = today
    · subst hd
      have h0 : countHeaderLines d text = 0 := by
        by_contra hne
        exact hin ((hI.2 d).2 (Nat.pos_of_ne_zero hne))
      rw [h0, if_pos rfl]
      refine ⟨le_refl 1, fun _ => ?_⟩
      exact ⟨text ++ ['\n'], entryLine ts entry, by simp⟩
    · rw [if_neg hd, Nat.add_zero]
      refine ⟨(hI.2 d).1, fun hge => ?_⟩
      exact contains_extend_right ((hI.2 d).2 hge) _

theorem inv_runWrites : ∀ (calls : List WriteCall) (text : Str), Inv text →
    (∀ c ∈ calls, NlFree c.today ∧ NlFree c.ts ∧ NlFree c.entry) →
    Inv (runWrites calls text)
  | [], text, hI, _ => hI
  | c :: cs, text, hI, hfree => by
      have hc := hfree c (List.mem_cons_self c cs)
      exact inv_runWrites cs (write c.today c.ts c.entry text)
        (inv_write c.today c.ts c.entry text hc.1 hc.2.1 hc.2.2 hI)
        (fun c' hc' => hfree c' (List.mem_cons_of_mem c hc'))

/-- C1 (amended): provided no date, time, or entry string passed to `write`
contains a newline character, every sequence of `write` invocations starting
from an empty or absent log file yields a file in which the Day Section header
line for a given date appears at most once; and once the header string for a
date is present anywhere in the file contents, a subsequent `write` for that
same date appends only the entry line and never a second header. -/
theorem write_day_header_at_most_once :
    (∀ calls : List WriteCall,
        (∀ c ∈ calls, NlFree c.today ∧ NlFree c.ts ∧ NlFree c.entry) →
        ∀ d : Str, countHeaderLines d (runWrites calls []) ≤ 1)
    ∧ ∀ today ts entry text : Str, hdr today <:+: text →
        write today ts entry text = text ++ entryLine ts entry := by
  constructor
  · intro calls hfree d
    exact ((inv_runWrites calls [] inv_nil hfree).2 d).1
  · intro today ts entry text h
    simp [write, h]

/-- Witness for C1 at concrete inputs: two same-day writes from an empty file
leave at most one header line, and a write into a file already containing the
day's header appends only the entry line. -/
theorem write_day_header_at_most_once_witness :
    countHeaderLines (strLit "2024-01-01")
        (runWrites [⟨strLit "2024-01-01", strLit "09:15", strLit "writing code"⟩,
          ⟨strLit "2024-01-01", strLit "10:00", strLit "reading docs"⟩] []) ≤ 1
    ∧ write (strLit "2024-01-01") (strLit "10:00") (strLit "reading docs")
        (strLit "\n## 2024-01-01\n- 09:15 writing code\n")
      = strLit "\n## 2024-01-01\n- 09:15 writing code\n"
        ++ entryLine (strLit "10:00") (strLit "reading docs") :=
  ⟨write_day_header_at_most_once.1 _ (by decide) _,
    write_day_header_at_most_once.2 _ _ _ _ (by decide)⟩

/-- Counterexample to C1 as stated: a single `write` whose entry text contains
a newline followed by the day's header string produces a file in which the Day
Section header line for that date appears twice. -/
theorem write_day_header_twice_counterexample :
    countHeaderLines (strLit "2024-01-01")
      (runWrites [⟨strLit "2024-01-01", strLit "10:00",
        'x' :: '\n' :: strLit "## 2024-01-01"⟩] []) = 2 := by decide

/-- C2: starting from an empty or absent log file, a `write` of entry
"writing code" at date 2024-01-01 and time 09:15 yields exactly a blank line,
the level-2 date header, then the entry line. -/
theorem write_empty_file_scenario :
    write (strLit "2024-01-01") (strLit "09:15") (strLit "writing code") []
      = strLit "\n## 2024-01-01\n- 09:15 writing code\n" := by decide

/-- C3: `write` only appends: the previous file content is an exact prefix of
the file content after the call. -/
theorem write_append_only :
    ∀ today ts entry text : Str, text <+: write today ts entry text := by
  intro today ts entry text
  exact ⟨(if hdr today <:+: text then [] else '\n' :: hdr today)
    ++ entryLine ts entry, by simp [write]⟩

/-- C6: for every entry and clock reading, the line `write` appends for the
entry is exactly `- HH:MM <entry>\n`, with the entry text included verbatim;
the only other bytes a call may add are a blank line and the day header placed
before that line. -/
theorem write_entry_line_verbatim :
    ∀ today ts entry text : Str, ∃ pre : Str,
      write today ts entry text
        = text ++ pre ++ ('-' :: ' ' :: (ts ++ ' ' :: (entry ++ ['\n'])))
      ∧ (pre = [] ∨ pre = '\n' :: hdr today) := by
  intro today ts entry text
  by_cases h : hdr today <:+: text
  · exact ⟨[], by simp [write, h, entryLine], Or.inl rfl⟩
  · exact ⟨'\n' :: hdr today, by simp [write, h, entryLine], Or.inr rfl⟩

/-- C7: writing at date 2024-01-02 time 00:05 into a file that contains only
the 2024-01-01 section appends a blank line, the new day's header, and the
entry line after the prior section, for every entry text. -/
theorem write_new_day_scenario :
    ∀ entry : Str,
      write (strLit "2024-01-02") (strLit "00:05") entry
          (strLit "\n## 2024-01-01\n- 09:15 writing code\n")
        = strLit "\n## 2024-01-01\n- 09:15 writing code\n"
          ++ strLit "\n## 2024-01-02\n- 00:05 " ++ entry ++ strLit "\n" := by
  intro entry
  have hni : ¬ (hdr (strLit "2024-01-02")
      <:+: strLit "\n## 2024-01-01\n- 09:15 writing code\n") := by decide
  have hpre : strLit "\n## 2024-01-01\n- 09:15 writing code\n"
        ++ strLit "\n## 2024-01-02\n- 00:05 "
      = strLit "\n## 2024-01-01\n- 09:15 writing code\n"
        ++ ('\n' :: hdr (strLit "2024-01-02"))
        ++ ('-' :: ' ' :: (strLit "00:05" ++ [' '])) := by decide
  rw [show strLit "\n" = ['\n'] from rfl, hpre]
  simp [write, hni, entryLine]

/-- C9: there is a prior file content in which the new date's header string
occurs only inside an earlier entry line (not as a heading line), so `write`
for that date appends the entry line without ever writing the date's header:
the header is suppressed by the substring containment check. -/
theorem write_header_suppressed_by_entry_text :
    ∃ text today ts entry : Str,
      hdr today <:+: text
      ∧ countHeaderLines today text = 0
      ∧ write today ts entry text = text ++ entryLine ts entry
      ∧ countHeaderLines today (write today ts entry text) = 0 := by
  refine ⟨strLit "\n## 2024-01-01\n- 09:15 foo ## 2024-01-02\n",
    strLit "2024-01-02", strLit "00:05", strLit "bar", ?_, ?_, ?_, ?_⟩
  · decide
  · decide
  · decide
  · decide

theorem mainIter_events_shape (r : RunResult) (today ts : Str) (s : SysState) :
    ∃ w : List Event,
      (mainIter r today ts s).events
        = s.events ++ Event.promptEv r :: (w ++ [Event.sleepEv 1800])
      ∧ ((∃ a, prompt r = some a ∧ a ≠ [] ∧ w = [Event.writeEv a]
            ∧ (mainIter r today ts s).text = write today ts a s.text)
        ∨ ((prompt r = none ∨ prompt r = some []) ∧ w = []
            ∧ (mainIter r today ts s).text = s.text)) := by
  rcases hp : prompt r with _ | a
  · exact ⟨[], by simp [mainIter, hp], Or.inr ⟨Or.inl rfl, rfl, by simp [mainIter, hp]⟩⟩
  · by_cases ha : a = []
    · subst ha
      exact ⟨[], by simp [mainIter, hp], Or.inr ⟨Or.inr rfl, rfl, by simp [mainIter, hp]⟩⟩
    · exact ⟨[Event.writeEv a], by simp [mainIter, hp, ha],
        Or.inl ⟨a, rfl, ha, rfl, by simp [mainIter, hp, ha]⟩⟩

theorem mainRun_events_head (inputs : Nat → RunResult × Str × Str) :
    ∀ n : Nat, (mainRun inputs (n + 1)).events.head? = some (Event.promptEv (inputs 0).1)
  | 0 => by
      obtain ⟨w, hw, _⟩ :=
        mainIter_events_shape (inputs 0).1 (inputs 0).2.1 (inputs 0).2.2 (mainRun inputs 0)
      rw [show mainRun inputs 1
        = mainIter (inputs 0).1 (inputs 0).2.1 (inputs 0).2.2 (mainRun inputs 0) from rfl, hw]
      rfl
  | n + 1 => by
      have ih := mainRun_events_head inputs n
      obtain ⟨w, hw, _⟩ := mainIter_events_shape (inputs (n + 1)).1 (inputs (n + 1)).2.1
        (inputs (n + 1)).2.2 (mainRun inputs (n + 1))
      rw [show mainRun inputs (n + 2) = mainIter (inputs (n + 1)).1 (inputs (n + 1)).2.1
        (inputs (n + 1)).2.2 (mainRun inputs (n + 1)) from rfl, hw]
      rcases hev : (mainRun inputs (n + 1)).events with _ | ⟨e0, rest⟩
      · rw [hev] at ih
        simp at ih
      · rw [hev] at ih
        simp only [List.head?_cons, Option.some.injEq] at ih
        simp [ih]

theorem mainRun_events_length (inputs : Nat → RunResult × Str × Str) :
    ∀ n : Nat, n ≤ (mainRun inputs n).events.length
  | 0 => Nat.zero_le _
  | n + 1 => by
      have ih := mainRun_events_length inputs n
      obtain ⟨w, hw, _⟩ :=
        mainIter_events_shape (inputs n).1 (inputs n).2.1 (inputs n).2.2 (mainRun inputs n)
      rw [show mainRun inputs (n + 1)
        = mainIter (inputs n).1 (inputs n).2.1 (inputs n).2.2 (mainRun inputs n) from rfl, hw]
      simp only [List.length_append, List.length_cons]
      omega

/-- C4: `prompt` returns the entered text trimmed of surrounding whitespace
exactly when the dialog process exits with status zero, and returns `none`
whenever the exit status is non-zero, whatever the reason of failure. -/
theorem prompt_success_or_failure :
    ∀ r : RunResult,
      (r.returncode = 0 ∧ prompt r = some (strip r.stdout))
      ∨ (r.returncode ≠ 0 ∧ prompt r = none) := by
  intro r
  by_cases h : r.returncode = 0
  · exact Or.inl ⟨h, by simp [prompt, h]⟩
  · exact Or.inr ⟨h, by simp [prompt, h]⟩

/-- C5: in a driver-loop iteration in which `prompt` yields no answer, `write`
is not called: the file text is unchanged and the trace gains only the prompt
and sleep events. -/
theorem main_no_answer_no_write :
    ∀ (r : RunResult) (today ts : Str) (s : SysState), prompt r = none →
      (mainIter r today ts s).text = s.text
      ∧ (mainIter r today ts s).events
          = s.events ++ [Event.promptEv r, Event.sleepEv 1800] := by
  intro r today ts s hp
  constructor
  · simp [mainIter, hp]
  · simp [mainIter, hp]

/-- Witness for C5: a dialog run with exit status 1 leaves the file unchanged. -/
theorem main_no_answer_no_write_witness :
    (mainIter ⟨1, []⟩ [] [] ⟨strLit "x", []⟩).text = strLit "x"
    ∧ (mainIter ⟨1, []⟩ [] [] ⟨strLit "x", []⟩).events
        = [] ++ [Event.promptEv ⟨1, []⟩, Event.sleepEv 1800] :=
  main_no_answer_no_write ⟨1, []⟩ [] [] ⟨strLit "x", []⟩ (by decide)

/-- C8: every driver-loop iteration performs, in order, one prompt, then a
write of the answer exactly when the answer is non-empty, then a sleep of
exactly 1800 seconds; the first event of any run is the initial prompt (no
initial sleep), and the trace grows without bound (no terminal state). -/
theorem main_loop_iteration_structure :
    ∀ (inputs : Nat → RunResult × Str × Str) (n : Nat),
      (∃ w : List Event,
        (mainRun inputs (n + 1)).events
          = (mainRun inputs n).events
            ++ Event.promptEv (inputs n).1 :: (w ++ [Event.sleepEv 1800])
        ∧ ((∃ a, prompt (inputs n).1 = some a ∧ a ≠ [] ∧ w = [Event.writeEv a])
          ∨ ((prompt (inputs n).1 = none ∨ prompt (inputs n).1 = some []) ∧ w = [])))
      ∧ (mainRun inputs (n + 1)).events.head? = some (Event.promptEv (inputs 0).1)
      ∧ n + 1 ≤ (mainRun inputs (n + 1)).events.length := by
  intro inputs n
  obtain ⟨w, hw, hcase⟩ :=
    mainIter_events_shape (inputs n).1 (inputs n).2.1 (inputs n).2.2 (mainRun inputs n)
  refine ⟨⟨w, hw, ?_⟩, mainRun_events_head inputs n, mainRun_events_length inputs (n + 1)⟩
  rcases hcase with ⟨a, hpa, hane, hwv, _⟩ | ⟨hnone, hwv, _⟩
  · exact Or.inl ⟨a, hpa, hane, hwv⟩
  · exact Or.inr ⟨hnone, hwv⟩

/-- C10: if the dialog exits with status zero but the user typed nothing or
only whitespace, the trimmed answer is the empty string and the driver treats
it like a cancellation: `write` is not called and the file is unchanged. -/
theorem main_blank_answer_no_write :
    ∀ (r : RunResult) (today ts : Str) (s : SysState),
      r.returncode = 0 → (∀ c ∈ r.stdout, c.isWhitespace = true) →
      prompt r = some []
      ∧ (mainIter r today ts s).text = s.text
      ∧ (mainIter r today ts s).events
          = s.events ++ [Event.promptEv r, Event.sleepEv 1800] := by
  intro r today ts s h0 hws
  have h1 : r.stdout.dropWhile Char.isWhitespace = [] :=
    List.dropWhile_eq_nil_iff.mpr hws
  have hstrip : strip r.stdout = [] := by simp [strip, h1]
  have hp : prompt r = some [] := by simp [prompt, h0, hstrip]
  exact ⟨hp, by simp [mainIter, hp], by simp [mainIter, hp]⟩

/-- Witness for C10: a dialog run exiting with status 0 and whitespace-only
output yields the empty answer and leaves the file unchanged. -/
theorem main_blank_answer_no_write_witness :
    prompt ⟨0, strLit "  "⟩ = some []
    ∧ (mainIter ⟨0, strLit "  "⟩ [] [] ⟨strLit "x", []⟩).text = strLit "x"
    ∧ (mainIter ⟨0, strLit "  "⟩ [] [] ⟨strLit "x", []⟩).events
        = [] ++ [Event.promptEv ⟨0, strLit "  "⟩, Event.sleepEv 1800] :=
  main_blank_answer_no_write ⟨0, strLit "  "⟩ [] [] ⟨strLit "x", []⟩ rfl (by decide)

end Wrud
